import Mathlib

set_option maxHeartbeats 1000000
set_option maxRecDepth 100000

namespace MtgBot

/-- Character strings of the Python program `bot.py`, modelled as lists of
characters so that every operation is structurally recursive and computable. -/
abbrev Str := List Char

/-- Builds one (pattern, replacement) pair of an abbreviation dictionary. -/
def kv (a b : String) : Str × Str := (a.toList, b.toList)

/-- The `SUPER_TYPE_MAPPING` dictionary of `bot.py`, in source (insertion) order. -/
def SUPER_TYPE_MAPPING : List (Str × Str) :=
  [ kv "Artifact" "A", kv "Aura" "A2", kv "Creature" "C", kv "Enchantment" "E",
    kv "Instant" "I", kv "Interrupt" "I2", kv "Land" "L", kv "Legendary" "L2",
    kv "Planeswalker" "P", kv "Sorcery" "S" ]

/-- The `SUB_TYPE_MAPPING` dictionary of `bot.py`, in source order. -/
def SUB_TYPE_MAPPING : List (Str × Str) :=
  [ kv "Advisor" "Ad", kv "Angel" "An", kv "Artificer" "Ar", kv "Assassin" "As",
    kv "Barbarian" "Ba", kv "Beast" "Be", kv "Bird" "Bi", kv "Cleric" "Cl",
    kv "Construct" "Co", kv "Demon" "De", kv "Dinosaur" "Di", kv "Dragon" "Dr",
    kv "Dreadnought" "Dr2", kv "Druid" "Dr3", kv "Dwarf" "Dw", kv "Elemental" "El",
    kv "Equipment" "Eq", kv "Faerie" "Fa", kv "Goblin" "Go", kv "Golem" "Go2",
    kv "Horror" "Ho", kv "Human" "Hu", kv "Insect" "In", kv "Juggernaut" "Ju",
    kv "Lizard" "Li", kv "Minotaur" "Mi", kv "Mole" "Mo", kv "Monk" "Mo2",
    kv "Phyrexian" "Ph", kv "Praetor" "Pr", kv "Rat" "Ra", kv "Scout" "Sc",
    kv "Shapeshifter" "Sh", kv "Soldier" "So", kv "Thopter" "Th", kv "Wall" "Wa",
    kv "Warlock" "Wa2", kv "Wizard" "Wi", kv "Wurm" "Wu", kv "Zombie" "Zo" ]

/-- The `LAND_MAPPING` dictionary of `bot.py`, in source order. -/
def LAND_MAPPING : List (Str × Str) :=
  [ kv "Basic" "BaL", kv "Forest" "FoL", kv "Island" "IsL", kv "Mountain" "MoL",
    kv "Plains" "PlL", kv "Swamp" "SwL" ]

/-- The `RARITY_MAPPING` dictionary of `bot.py`, in source order. -/
def RARITY_MAPPING : List (Str × Str) :=
  [ kv "common" "C", kv "uncommon" "U", kv "rare" "R", kv "mythic" "M" ]

/-- The `KEYWORD_MAPPING` dictionary of `bot.py`, in source order. -/
def KEYWORD_MAPPING : List (Str × Str) :=
  [ kv "Deathtouch" "DTH", kv "Flying" "FLY", kv "Haste" "HST", kv "Lifelink" "LLK",
    kv "Menace" "MEN", kv "Trample" "TRP", kv "Vigilance" "VIG", kv "Exile" "EXL" ]

/-- The `NUMBER_MAPPING` dictionary of `bot.py`, in source order. -/
def NUMBER_MAPPING : List (Str × Str) :=
  [ kv "One" "1", kv "Two" "2", kv "Three" "3", kv "Four" "4",
    kv "First" "1st", kv "Second" "2nd", kv "Third" "3rd" ]

/-- The `TEXT_MAPPING` (rules-phrase) dictionary of `bot.py`, in source order. -/
def TEXT_MAPPING : List (Str × Str) :=
  [ kv "\n" " ", kv " — " "—", kv "+1/+1" "PP",
    kv "At the beginning" "ATB", kv "Combat" "CBT", kv "Counter" "CT",
    kv "Create" "CTE", kv "Creature" "CR", kv "Destroy target" "DT",
    kv "Double strike" "DS", kv "Draw a card" "DAC", kv "Enchant creature" "EC",
    kv "End of turn" "EOT", kv "Enters the battlefield" "ETB",
    kv "Exile target" "EXT", kv "Leaves the battlefield" "LTB",
    kv "Mana value" "MV", kv "Permanent" "PM", kv "Player" "PYR",
    kv "Return target" "RT", kv "Scry" "SC", kv "Search your library" "SYL",
    kv "Surveil" "SU", kv "Target" "TR", kv "Token" "TKN", kv "Whenever" "WN",
    kv "You control" "YC", kv "You gain" "YG" ]

/-- The `MANA_COST_MAPPING` dictionary of `bot.py`: deletes the brace delimiters. -/
def MANA_COST_MAPPING : List (Str × Str) :=
  [ kv "\x7b" "", kv "\x7d" "" ]

/-- ASCII whitespace: the characters matched by the regular-expression class
for whitespace and stripped by `str.strip` on the ASCII card data. -/
def isSpace (ch : Char) : Bool :=
  ch = ' ' || ch = '\t' || ch = '\n' || ch = '\r' || ch = '\x0b' || ch = '\x0c'

/-- Substring test: does the pattern `p` occur (contiguously) anywhere in the
string. -/
def containsSub (p : Str) : Str → Bool
  | [] => p.isEmpty
  | c :: rest => p.isPrefixOf (c :: rest) || containsSub p rest

/-- Python `str.replace`: replaces every occurrence of the pattern `p` by `r`,
scanning left to right without overlap.  The fuel argument only serves to make
the recursion structural; `replaceAll` supplies fuel equal to the length of the
string, which is never exhausted because each step consumes at least one
character. -/
def replaceAllAux (p r : Str) : Nat → Str → Str
  | 0, s => s
  | _ + 1, [] => []
  | fuel + 1, c :: rest =>
    if p.isPrefixOf (c :: rest) && !p.isEmpty then
      r ++ replaceAllAux p r fuel (rest.drop (p.length - 1))
    else
      c :: replaceAllAux p r fuel rest

/-- Python `s.replace(p, r)` for a nonempty pattern `p` (the program only ever
replaces nonempty patterns; for an empty pattern this model returns `s`). -/
def replaceAll (p r s : Str) : Str := replaceAllAux p r s.length s

/-- Python `str.lower` on the ASCII dictionary keys. -/
def lowerKey (s : Str) : Str := s.map Char.toLower

/-- One dictionary-application loop of `load_mtg_set`: for each (pattern,
replacement) pair in order, an exact-case replacement pass followed by an
all-lowercase-pattern pass with the same replacement. -/
def applyMapping2 (m : List (Str × Str)) (s : Str) : Str :=
  m.foldl (fun acc pr => replaceAll (lowerKey pr.1) pr.2 (replaceAll pr.1 pr.2 acc)) s

/-- A single-pass dictionary application: for each pair in order, only the
exact-case replacement (the loops at lines 312-314, 325-327 and 333-334 of
`bot.py`). -/
def applyMapping1 (m : List (Str × Str)) (s : Str) : Str :=
  m.foldl (fun acc pr => replaceAll pr.1 pr.2 acc) s

/-- Index of the last close parenthesis occurring before the first newline of
the list, if any: the greedy regular expression dot does not match a newline,
so a reminder-text match starting at an open parenthesis extends to exactly
this position. -/
def lastCloseAux : Str → Option Nat
  | [] => none
  | c :: rest =>
    if c = '\n' then none
    else
      match lastCloseAux rest with
      | some k => some (k + 1)
      | none => if c = ')' then some 0 else none

/-- The reminder-text removal `re.sub` of `bot.py` line 316 with the greedy
pattern "open parenthesis, any non-newline characters, close parenthesis":
scanning left to right, at each open parenthesis whose newline-free segment
contains a later close parenthesis, the whole span up to the last such close
parenthesis is deleted and scanning resumes after it.  Fuel-indexed to be
structural; `removeReminder` supplies sufficient fuel. -/
def removeRemAux : Nat → Str → Str
  | 0, s => s
  | _ + 1, [] => []
  | fuel + 1, c :: rest =>
    if c = '(' then
      match lastCloseAux rest with
      | some k => removeRemAux fuel (rest.drop (k + 1))
      | none => c :: removeRemAux fuel rest
    else c :: removeRemAux fuel rest

/-- Removes every greedy parenthetical span, as `re.sub` with the greedy
dot-star pattern does. -/
def removeReminder (s : Str) : Str := removeRemAux s.length s

/-- Python `str.strip`: removes leading and trailing whitespace. -/
def stripList (s : Str) : Str :=
  (((s.dropWhile isSpace).reverse.dropWhile isSpace)).reverse

/-- Collapses each run of whitespace characters to a single space, as the
`re.sub` of `bot.py` line 322 does.  Fuel-indexed to be structural. -/
def collapseAux : Nat → Str → Str
  | 0, s => s
  | _ + 1, [] => []
  | fuel + 1, c :: rest =>
    if isSpace c then ' ' :: collapseAux fuel (rest.dropWhile isSpace)
    else c :: collapseAux fuel rest

/-- The whitespace clean-up of `bot.py` line 322: strip, then collapse each
whitespace run to a single space. -/
def collapseWs (s : Str) : Str := collapseAux (stripList s).length (stripList s)

/-- The fixed placeholder substituted for the card's own name. -/
def NAME_PLACEHOLDER : Str := "NAME".toList

/-- The type-line normalization of `load_mtg_set` (lines 266-279):
supertype, subtype and land dictionaries, each as exact-then-lowercase passes. -/
def normalizeTypeLine (card_type : Str) : Str :=
  let card_type := applyMapping2 SUPER_TYPE_MAPPING card_type
  let card_type := applyMapping2 SUB_TYPE_MAPPING card_type
  let card_type := applyMapping2 LAND_MAPPING card_type
  card_type

/-- The rules-text normalization of `load_mtg_set` (lines 281-322): the
phrase, supertype, subtype, land, keyword and number dictionaries (each as
exact-then-lowercase passes), mana-bracket stripping (single pass), greedy
reminder-text removal, replacement of the card's (pre-normalization) name by
the placeholder, and whitespace collapse. -/
def normalizeText (name text : Str) : Str :=
  let text := applyMapping2 TEXT_MAPPING text
  let text := applyMapping2 SUPER_TYPE_MAPPING text
  let text := applyMapping2 SUB_TYPE_MAPPING text
  let text := applyMapping2 LAND_MAPPING text
  let text := applyMapping2 KEYWORD_MAPPING text
  let text := applyMapping2 NUMBER_MAPPING text
  let text := applyMapping1 MANA_COST_MAPPING text
  let text := removeReminder text
  let text := replaceAll name NAME_PLACEHOLDER text
  collapseWs text

/-- The card-name rewrite of `load_mtg_set` (lines 324-327): a single
exact-case pass of the land dictionary over the name field. -/
def normalizeName (name : Str) : Str := applyMapping1 LAND_MAPPING name

/-- One raw row of the `cards` table as destructured by `load_mtg_set`
(columns of the SELECT at lines 236-262, plus the `setCode` and the filter
columns used in the WHERE clause). -/
structure RawCard where
  artist : Str
  card_type : Str
  colors : Str
  flavor_text : Str
  is_full_art : Str
  is_reprint : Str
  mana_cost : Str
  mana_value : Str
  name : Str
  number : Str
  original_release_date : Str
  power : Str
  rarity : Str
  text : Str
  toughness : Str
  setCode : Str
deriving DecidableEq, Repr

/-- One normalized card dictionary as appended by `load_mtg_set`
(lines 336-352). -/
structure Card where
  artist : Str
  type : Str
  colors : Str
  flavor_text : Str
  is_full_art : Str
  is_reprint : Str
  mana_cost : Str
  mana_value : Str
  name : Str
  number : Str
  original_release_date : Str
  power : Str
  rarity : Str
  text : Str
  toughness : Str
deriving DecidableEq, Repr

/-- Strict rarity lookup: `RARITY_MAPPING[rarity]`; `none` models the
`KeyError` raised for an unrecognized rarity. -/
def lookupRarity (r : Str) : Option Str := RARITY_MAPPING.lookup r

/-- Error token for the Python `KeyError` on an unrecognized rarity. -/
def keyErrorMsg : Str := "KeyError".toList

/-- Error token for the Python `UnboundLocalError` raised when `set_data` is
referenced at the return statement without ever having been bound. -/
def unboundLocalMsg : Str := "UnboundLocalError".toList

/-- The dictionary appended by `load_mtg_set` for one card (lines 336-352):
each field as computed by the loop body, given the already looked-up rarity
code.  The mana cost is stripped only when truthy (line 332). -/
def mkNormalized (c : RawCard) (rarity : Str) : Card :=
  { artist := c.artist
    type := normalizeTypeLine c.card_type
    colors := c.colors
    flavor_text := c.flavor_text
    is_full_art := c.is_full_art
    is_reprint := c.is_reprint
    mana_cost :=
      if c.mana_cost.isEmpty then c.mana_cost
      else applyMapping1 MANA_COST_MAPPING c.mana_cost
    mana_value := c.mana_value
    name := normalizeName c.name
    number := c.number
    original_release_date := c.original_release_date
    power := c.power
    rarity := rarity
    text := normalizeText c.name c.text
    toughness := c.toughness }

/-- The per-card body of the `load_mtg_set` loop (lines 266-352): normalizes
the type line, rules text, name, rarity and mana cost.  An unrecognized rarity
raises `KeyError`, modelled as `Except.error`. -/
def normalizeCard (c : RawCard) : Except Str Card :=
  match lookupRarity c.rarity with
  | none => Except.error keyErrorMsg
  | some rarity => Except.ok (mkNormalized c rarity)

/-- One row of the `sets` table (columns of the SELECT at lines 198-211 plus
the `code` used in the WHERE clause). -/
structure SetRow where
  code : Str
  name : Str
  releaseDate : Str
  type : Str
deriving DecidableEq, Repr

/-- The `set_data` dictionary built by `load_mtg_set` (lines 212-216). -/
structure SetData where
  name : Str
  release : Str
  type : Str
deriving DecidableEq, Repr

/-- The sqlite database: the two tables read by `load_mtg_set`. -/
structure DB where
  sets : List SetRow
  cards : List RawCard
deriving DecidableEq, Repr

/-- The literal color filter of the card query: `colors = 'U'`. -/
def uStr : Str := "U".toList

/-- The card query of `load_mtg_set` (lines 236-264): rows of the `cards`
table with the given set code and the hardcoded color filter `colors = 'U'`. -/
def queryCards (db : DB) (set_code : Str) : List RawCard :=
  db.cards.filter (fun r => r.setCode == set_code && r.colors == uStr)

/-- Sequential normalization of the selected card rows; the first `KeyError`
aborts the whole load with no partial output, as the Python exception does. -/
def loadCards : List RawCard → Except Str (List Card)
  | [] => Except.ok []
  | r :: rs =>
    match normalizeCard r with
    | Except.error e => Except.error e
    | Except.ok c =>
      match loadCards rs with
      | Except.error e => Except.error e
      | Except.ok cs => Except.ok (c :: cs)

/-- The whole of `load_mtg_set` (lines 193-354): runs the set-metadata query
(`LIMIT 1`), the card query plus per-card normalization, and returns the pair.
If the set-metadata query matched no row, the variable `set_data` was never
bound and Python raises `UnboundLocalError` at the return statement, modelled
as `Except.error unboundLocalMsg`.  A `KeyError` in the card loop is raised
first, before the return statement is reached. -/
def loadMtgSet (db : DB) (set_code : Str) : Except Str (SetData × List Card) :=
  let setRows := (db.sets.filter (fun r => r.code == set_code)).take 1
  let set_data : Option SetData :=
    setRows.foldl
      (fun _ r => some { name := r.name, release := r.releaseDate, type := r.type })
      none
  match loadCards (queryCards db set_code) with
  | Except.error e => Except.error e
  | Except.ok cards =>
    match set_data with
    | some sd => Except.ok (sd, cards)
    | none => Except.error unboundLocalMsg

/-- Does a field need quoting under the csv writer's minimal-quoting rule:
it contains the delimiter, the quote character, or a CR or LF. -/
def needsQuote (f : Str) : Bool :=
  f.any (fun ch => ch = '|' || ch = '"' || ch = '\r' || ch = '\n')

/-- Minimal quoting of one field by the csv writer with delimiter `|`. -/
def quoteField (f : Str) : Str :=
  if needsQuote f then '"' :: (replaceAll ['"'] ['"', '"'] f) ++ ['"'] else f

/-- Joins fields with the `|` delimiter. -/
def joinPipe : List Str → Str
  | [] => []
  | [f] => f
  | f :: rest => f ++ '|' :: joinPipe rest

/-- One csv row: quoted fields joined by `|`, terminated by a newline. -/
def writeRow (fields : List Str) : Str :=
  joinPipe (fields.map quoteField) ++ ['\n']

/-- `explain_set` (lines 364-381): header row then the set-metadata row. -/
def explainSet (sd : SetData) : Str :=
  writeRow ["name".toList, "release".toList, "type".toList] ++
    writeRow [sd.name, sd.release, sd.type]

/-- `explain_cards` (lines 384-408): header row then one row per card, in
order, restricted to the seven listed fields. -/
def explainCards (cards : List Card) : Str :=
  writeRow ["type".toList, "mana_cost".toList, "name".toList, "power".toList,
    "toughness".toList, "rarity".toList, "text".toList] ++
  cards.foldr
    (fun c acc =>
      writeRow [c.type, c.mana_cost, c.name, c.power, c.toughness, c.rarity, c.text] ++ acc)
    []

/-- `generate_prompt` (lines 357-361): the set block followed immediately by
the cards block; nothing else is concatenated. -/
def generatePrompt (sd : SetData) (cards : List Card) : Str :=
  explainSet sd ++ explainCards cards

/-- The module-level `PROMPT` constant of `bot.py` (lines 10-38).  It is
defined by the source but never referenced by `main` or `generate_prompt`. -/
def PROMPT : Str :=
  ("\nYou are MTGBot. You have expert level experience with Magic: The Gathering competitive drafting.\n" ++
   "You will be generating a very high quality article in the voice of MTG Hall of Famer Reid Duke.\n" ++
   "I\x27m going to give you a list of all the cards of one color from a recent expansion set.\n" ++
   "Your task is to parse the data and:\n" ++
   "    * determine if it would be viable to play a mono-color deck of that color (be realistic!)\n" ++
   "      * remember the typical optimal distribution of card types:\n" ++
   "        * 17 lands\n" ++
   "        * 15 creatures\n" ++
   "        * 8 non-creature spells\n" ++
   "      * be willing to bend the typical distribution\n" ++
   "    * what the general theme of the deck might be\n" ++
   "      * if there are multiple options, mention it\n" ++
   "    * some key cards to look for\n" ++
   "      * dont just focus on rare and mythic cards\n" ++
   "    * interesting combinations of cards\n" ++
   "      * look for unexpected synergy that other players might miss and thus will be under-drafted\n" ++
   "    * think about cards that are more useful in a mono-color deck\n" ++
   "    * dont forget a win condition\n" ++
   "\n" ++
   "Your output should include:\n" ++
   "    * a quick brainstorming session based on the cards you just saw\n" ++
   "    * once you understand all the cards and how they might work together, write the article\n" ++
   "      in the format of a blog post\n" ++
   "\n" ++
   "Good luck, you\x27ll do great!\n" ++
   "\n" ++
   "Your input:\n").toList

/-- The text `main` (lines 180-186) hands to the output boundary (`print`):
exactly the value of `generate_prompt`. -/
def mainOutput (db : DB) (set_code : Str) : Except Str Str :=
  match loadMtgSet db set_code with
  | Except.error e => Except.error e
  | Except.ok (set_data, cards) => Except.ok (generatePrompt set_data cards)


/-- All eight dictionaries of `bot.py`, for whole-table statements. -/
def allDicts : List (List (Str × Str)) :=
  [SUPER_TYPE_MAPPING, SUB_TYPE_MAPPING, LAND_MAPPING, RARITY_MAPPING,
   KEYWORD_MAPPING, NUMBER_MAPPING, TEXT_MAPPING, MANA_COST_MAPPING]

/-- Every pattern of every dictionary. -/
def allKeys : List Str := allDicts.foldr (fun m acc => m.map Prod.fst ++ acc) []

/-- Every replacement code of every dictionary. -/
def allCodes : List Str := allDicts.foldr (fun m acc => m.map Prod.snd ++ acc) []

/-- Whole-table check: no dictionary pattern, in exact-case or lowercase form,
occurs inside any replacement code. -/
def noKeyInCodes : Bool :=
  allKeys.all (fun k =>
    allCodes.all (fun c => !(containsSub k c) && !(containsSub (lowerKey k) c)))

/-- A benign concrete card row whose fields contain no dictionary pattern. -/
def rawEx : RawCard :=
  { artist := "a".toList, card_type := "z".toList, colors := "U".toList,
    flavor_text := [], is_full_art := [], is_reprint := [],
    mana_cost := [], mana_value := "3".toList, name := "q".toList,
    number := "1".toList, original_release_date := [], power := "1".toList,
    rarity := "common".toList, text := "z".toList, toughness := "1".toList,
    setCode := "S1".toList }

/-- The normalization of `rawEx`. -/
def cardEx : Card :=
  { artist := "a".toList, type := "z".toList, colors := "U".toList,
    flavor_text := [], is_full_art := [], is_reprint := [],
    mana_cost := [], mana_value := "3".toList, name := "q".toList,
    number := "1".toList, original_release_date := [], power := "1".toList,
    rarity := "C".toList, text := "z".toList, toughness := "1".toList }

/-- A concrete set-metadata record. -/
def setEx : SetData := { name := "S".toList, release := "R".toList, type := "T".toList }

/-- A concrete database with one set row and the one benign card. -/
def dbEx : DB :=
  { sets := [{ code := "S1".toList, name := "S".toList,
               releaseDate := "R".toList, type := "T".toList }],
    cards := [rawEx] }

/-- A concrete card row whose name is the lowercase basic-land word. -/
def forestRaw : RawCard :=
  { rawEx with name := "forest".toList, text := [] }

/-- A concrete non-land card row whose name merely contains a basic-land word. -/
def walkerRaw : RawCard :=
  { rawEx with name := "Forestwalker".toList, text := [] }

/-- A database whose `sets` table has no row for the requested code. -/
def dbNoSet : DB := { sets := [], cards := [rawEx] }

/-- A card row carrying a rarity outside the four recognized values. -/
def badRarityRaw : RawCard := { rawEx with rarity := "special".toList }

/-- A database containing the unrecognized-rarity card. -/
def dbBadRarity : DB := { sets := dbEx.sets, cards := [badRarityRaw] }

/-- Characterization of the boolean prefix test by an append equation. -/
theorem isPrefixOf_eq_true_iff : ∀ (p s : Str), p.isPrefixOf s = true ↔ ∃ t, p ++ t = s
  | [], s => by simp [List.isPrefixOf]
  | a :: as, [] => by simp [List.isPrefixOf]
  | a :: as, b :: bs => by
    simp only [List.isPrefixOf, Bool.and_eq_true, beq_iff_eq]
    constructor
    · rintro ⟨h1, h2⟩
      obtain ⟨t, ht⟩ := (isPrefixOf_eq_true_iff as bs).mp h2
      exact ⟨t, by simp [h1, ht]⟩
    · rintro ⟨t, ht⟩
      injection ht with h1 h2
      exact ⟨h1, (isPrefixOf_eq_true_iff as bs).mpr ⟨t, h2⟩⟩

/-- The empty pattern occurs in every string. -/
theorem containsSub_nil (s : Str) : containsSub [] s = true := by
  cases s <;> simp [containsSub, List.isPrefixOf]

/-- A prefix of a string is still a prefix after appending on the right. -/
theorem isPrefixOf_append_right (q s w : Str) (h : q.isPrefixOf s = true) :
    q.isPrefixOf (s ++ w) = true := by
  obtain ⟨t, ht⟩ := (isPrefixOf_eq_true_iff q s).mp h
  exact (isPrefixOf_eq_true_iff q (s ++ w)).mpr ⟨t ++ w, by rw [← List.append_assoc, ht]⟩

/-- Extending a string on the right preserves substring occurrences. -/
theorem containsSub_append_right (q t w : Str) (h : containsSub q t = true) :
    containsSub q (t ++ w) = true := by
  induction t with
  | nil =>
    have : q = [] := by simpa [containsSub, List.isEmpty_iff] using h
    subst this
    exact containsSub_nil w
  | cons c rest ih =>
    simp only [containsSub, Bool.or_eq_true] at h
    rcases h with h | h
    · simp only [List.cons_append, containsSub, Bool.or_eq_true]
      exact Or.inl (isPrefixOf_append_right q (c :: rest) w h)
    · simp only [List.cons_append, containsSub, Bool.or_eq_true]
      exact Or.inr (ih h)

/-- Extending a string on the left preserves substring occurrences. -/
theorem containsSub_append_left (q u t : Str) (h : containsSub q t = true) :
    containsSub q (u ++ t) = true := by
  induction u with
  | nil => simpa using h
  | cons a u' ih =>
    simp only [List.cons_append, containsSub, Bool.or_eq_true]
    exact Or.inr ih

/-- A pattern absent from a string is absent from its `dropWhile`. -/
theorem containsSub_dropWhile (q : Str) (f : Char → Bool) (s : Str)
    (h : containsSub q s = false) : containsSub q (s.dropWhile f) = false := by
  cases hc : containsSub q (s.dropWhile f) with
  | false => rfl
  | true =>
    have := containsSub_append_left q (s.takeWhile f) (s.dropWhile f) hc
    rw [List.takeWhile_append_dropWhile] at this
    rw [this] at h
    cases h

/-- A pattern absent from a string is absent from its strip. -/
theorem containsSub_stripList (q s : Str) (h : containsSub q s = false) :
    containsSub q (stripList s) = false := by
  cases hc : containsSub q (stripList s) with
  | false => rfl
  | true =>
    exfalso
    have h2 := congrArg List.reverse
      (List.takeWhile_append_dropWhile (p := isSpace) (l := (s.dropWhile isSpace).reverse))
    simp only [List.reverse_append, List.reverse_reverse] at h2
    -- h2 : stripList s ++ (takeWhile part).reverse = s.dropWhile isSpace
    have h3 : containsSub q (s.dropWhile isSpace) = true := by
      rw [← h2]
      exact containsSub_append_right q (stripList s) _ hc
    have h4 := containsSub_append_left q (s.takeWhile isSpace) _ h3
    rw [List.takeWhile_append_dropWhile] at h4
    rw [h4] at h
    cases h


/-- A string without the pattern is returned unchanged by the replacement. -/
theorem replaceAllAux_not_contains (p r : Str) (fuel : Nat) :
    ∀ s : Str, containsSub p s = false → replaceAllAux p r fuel s = s := by
  induction fuel with
  | zero => intro s h; cases s <;> simp [replaceAllAux]
  | succ fuel ih =>
    intro s h
    cases s with
    | nil => simp [replaceAllAux]
    | cons c rest =>
      simp only [containsSub, Bool.or_eq_false_iff] at h
      simp [replaceAllAux, h.1, ih rest h.2]

/-- Python `replace` is the identity when the pattern does not occur. -/
theorem replaceAll_not_contains (p r s : Str) (h : containsSub p s = false) :
    replaceAll p r s = s :=
  replaceAllAux_not_contains p r s.length s h

/-- A single-pass dictionary application is the identity when no pattern of
the dictionary occurs in the string. -/
theorem applyMapping1_not_contains (m : List (Str × Str)) :
    ∀ s : Str, (∀ pr ∈ m, containsSub pr.1 s = false) → applyMapping1 m s = s := by
  induction m with
  | nil => intro s _; rfl
  | cons pr rest ih =>
    intro s h
    have h1 : replaceAll pr.1 pr.2 s = s :=
      replaceAll_not_contains pr.1 pr.2 s (h pr (by simp))
    have h2 : applyMapping1 rest s = s := ih s (fun q hq => h q (by simp [hq]))
    simp only [applyMapping1, List.foldl_cons] at *
    rw [h1, h2]

/-- Prepending a string whose characters are disjoint from the pattern does
not add occurrences of the pattern. -/
theorem containsSub_append_of_disjoint (p : Str) (hp : p ≠ []) :
    ∀ (r t : Str), (∀ ch ∈ p, ch ∉ r) →
      containsSub p (r ++ t) = containsSub p t := by
  intro r
  induction r with
  | nil => intro t _; simp
  | cons a r' ih =>
    intro t hd
    have hpre : p.isPrefixOf (a :: (r' ++ t)) = false := by
      cases p with
      | nil => exact absurd rfl hp
      | cons ph pt =>
        have hne : ph ≠ a := fun he => hd ph (by simp) (by simp [he])
        simp [List.isPrefixOf, hne]
    simp only [List.cons_append, containsSub, List.append_eq, hpre, Bool.false_or]
    exact ih t (fun ch hch hr => hd ch hch (by simp [hr]))

/-- Characters of a prefix of the replacement output either form a prefix of
the input or include a character of the replacement string. -/
theorem isPrefixOf_replaceAllAux (p r : Str) (hr : r ≠ []) :
    ∀ (fuel : Nat) (s q : Str),
      q.isPrefixOf (replaceAllAux p r fuel s) = true →
      q.isPrefixOf s = true ∨ ∃ ch ∈ q, ch ∈ r := by
  intro fuel
  induction fuel with
  | zero =>
    intro s q h
    cases s with
    | nil => exact Or.inl h
    | cons c rest => exact Or.inl h
  | succ fuel ih =>
    intro s q h
    cases s with
    | nil => exact Or.inl h
    | cons c rest =>
      by_cases hcond : (p.isPrefixOf (c :: rest) && !p.isEmpty) = true
      · rw [replaceAllAux, if_pos hcond] at h
        cases q with
        | nil => exact Or.inl (by simp [List.isPrefixOf])
        | cons qh qt =>
          cases r with
          | nil => exact absurd rfl hr
          | cons rh rt =>
            have hqh : qh = rh := by
              simp only [List.cons_append, List.isPrefixOf, Bool.and_eq_true,
                beq_iff_eq] at h
              exact h.1
            exact Or.inr ⟨qh, by simp, by simp [hqh]⟩
      · rw [replaceAllAux, if_neg hcond] at h
        cases q with
        | nil => exact Or.inl (by simp [List.isPrefixOf])
        | cons qh qt =>
          simp only [List.isPrefixOf, Bool.and_eq_true, beq_iff_eq] at h
          obtain ⟨hq, hpre⟩ := h
          rcases ih rest qt hpre with hl | hrr
          · exact Or.inl (by simp [List.isPrefixOf, hq, hl])
          · obtain ⟨ch, hch, hchr⟩ := hrr
            exact Or.inr ⟨ch, by simp [hch], hchr⟩


/-- After replacing every occurrence of a nonempty pattern by a nonempty
replacement sharing no character with the pattern, the pattern no longer
occurs. -/
theorem containsSub_replaceAllAux (p r : Str) (hp : p ≠ []) (hr : r ≠ [])
    (hd : ∀ ch ∈ p, ch ∉ r) :
    ∀ (fuel : Nat) (s : Str), s.length ≤ fuel →
      containsSub p (replaceAllAux p r fuel s) = false := by
  intro fuel
  induction fuel with
  | zero =>
    intro s hs
    have : s = [] := List.length_eq_zero.mp (Nat.le_zero.mp hs)
    subst this
    simpa [replaceAllAux, containsSub, List.isEmpty_iff] using hp
  | succ fuel ih =>
    intro s hs
    cases s with
    | nil => simpa [replaceAllAux, containsSub, List.isEmpty_iff] using hp
    | cons c rest =>
      have hrest : rest.length ≤ fuel := by
        simpa [List.length_cons] using Nat.lt_succ_iff.mp (Nat.lt_of_lt_of_le (Nat.lt_succ_self _) hs)
      by_cases hcond : (p.isPrefixOf (c :: rest) && !p.isEmpty) = true
      · rw [replaceAllAux, if_pos hcond]
        rw [containsSub_append_of_disjoint p hp r _ hd]
        apply ih
        calc (rest.drop (p.length - 1)).length ≤ rest.length := by
              rw [List.length_drop]; omega
          _ ≤ fuel := hrest
      · rw [replaceAllAux, if_neg hcond]
        have htail : containsSub p (replaceAllAux p r fuel rest) = false := ih rest hrest
        have hhead : p.isPrefixOf (c :: replaceAllAux p r fuel rest) = false := by
          cases hph : p.isPrefixOf (c :: replaceAllAux p r fuel rest) with
          | false => rfl
          | true =>
            exfalso
            cases p with
            | nil => exact hp rfl
            | cons ph pt =>
              simp only [List.isPrefixOf, Bool.and_eq_true, beq_iff_eq] at hph
              obtain ⟨hphc, hpt⟩ := hph
              rcases isPrefixOf_replaceAllAux (ph :: pt) r hr fuel rest pt hpt with hl | hrr
              · have : (ph :: pt).isPrefixOf (c :: rest) = true := by
                  simp [List.isPrefixOf, hphc, hl]
                simp [this, List.isEmpty_iff] at hcond
              · obtain ⟨ch, hch, hchr⟩ := hrr
                exact hd ch (by simp [hch]) hchr
        simp [containsSub, hhead, htail]

/-- Wrapper for the full replacement. -/
theorem containsSub_replaceAll (p r s : Str) (hp : p ≠ []) (hr : r ≠ [])
    (hd : ∀ ch ∈ p, ch ∉ r) : containsSub p (replaceAll p r s) = false :=
  containsSub_replaceAllAux p r hp hr hd s.length s (le_refl _)

/-- A whitespace-free prefix of the collapsed string is a prefix of the
original string. -/
theorem isPrefixOf_collapseAux :
    ∀ (fuel : Nat) (q s : Str), (∀ ch ∈ q, isSpace ch = false) →
      q.isPrefixOf (collapseAux fuel s) = true → q.isPrefixOf s = true := by
  intro fuel
  induction fuel with
  | zero =>
    intro q s _ h
    cases s with
    | nil => exact h
    | cons c rest => exact h
  | succ fuel ih =>
    intro q s hq h
    cases s with
    | nil => exact h
    | cons c rest =>
      by_cases hsp : isSpace c = true
      · rw [collapseAux, if_pos hsp] at h
        cases q with
        | nil => simp [List.isPrefixOf]
        | cons qh qt =>
          simp only [List.isPrefixOf, Bool.and_eq_true, beq_iff_eq] at h
          have h1 : isSpace qh = false := hq qh (by simp)
          rw [h.1] at h1
          exact absurd h1 (by decide)
      · rw [collapseAux, if_neg hsp] at h
        cases q with
        | nil => simp [List.isPrefixOf]
        | cons qh qt =>
          simp only [List.isPrefixOf, Bool.and_eq_true, beq_iff_eq] at h ⊢
          exact ⟨h.1, ih qt rest (fun ch hch => hq ch (by simp [hch])) h.2⟩

/-- Collapsing whitespace cannot introduce an occurrence of a nonempty
whitespace-free pattern. -/
theorem containsSub_collapseAux (p : Str) (hp : p ≠ [])
    (hsp : ∀ ch ∈ p, isSpace ch = false) :
    ∀ (fuel : Nat) (s : Str), containsSub p s = false →
      containsSub p (collapseAux fuel s) = false := by
  intro fuel
  induction fuel with
  | zero =>
    intro s h
    cases s with
    | nil => exact h
    | cons c rest => exact h
  | succ fuel ih =>
    intro s h
    cases s with
    | nil => exact h
    | cons c rest =>
      simp only [containsSub, Bool.or_eq_false_iff] at h
      by_cases hc : isSpace c = true
      · rw [collapseAux, if_pos hc]
        have htail : containsSub p (collapseAux fuel (rest.dropWhile isSpace)) = false :=
          ih _ (containsSub_dropWhile p isSpace rest h.2)
        have hhead : p.isPrefixOf (' ' :: collapseAux fuel (rest.dropWhile isSpace)) = false := by
          cases p with
          | nil => exact absurd rfl hp
          | cons ph pt =>
            have : ph ≠ ' ' := fun he => by
              have := hsp ph (by simp)
              rw [he] at this
              simp [isSpace] at this
            simp [List.isPrefixOf, this]
        simp [containsSub, hhead, htail]
      · rw [collapseAux, if_neg hc]
        have htail : containsSub p (collapseAux fuel rest) = false := ih rest h.2
        have hhead : p.isPrefixOf (c :: collapseAux fuel rest) = false := by
          cases hph : p.isPrefixOf (c :: collapseAux fuel rest) with
          | false => rfl
          | true =>
            exfalso
            cases p with
            | nil => exact hp rfl
            | cons ph pt =>
              simp only [List.isPrefixOf, Bool.and_eq_true, beq_iff_eq] at hph
              have hpt := isPrefixOf_collapseAux fuel pt rest
                (fun ch hch => hsp ch (by simp [hch])) hph.2
              have : (ph :: pt).isPrefixOf (c :: rest) = true := by
                simp [List.isPrefixOf, hph.1, hpt]
              rw [this] at h
              exact Bool.true_eq_false ▸ (by simpa using h.1)
        simp [containsSub, hhead, htail]


/-- If the newline-free prefix of a string contains no close parenthesis,
the greedy match finds no closing position in it. -/
theorem lastCloseAux_no_close :
    ∀ post : Str,
      (post.takeWhile (fun c => !(c == '\n'))).all (fun c => !(c == ')')) = true →
      lastCloseAux post = none := by
  intro post
  induction post with
  | nil => intro _; rfl
  | cons c ps ih =>
    intro h
    by_cases hc : c = '\n'
    · simp [lastCloseAux, hc]
    · have hpc : (!(c == '\n')) = true := by simpa using hc
      rw [List.takeWhile_cons, if_pos hpc] at h
      simp only [List.all_cons, Bool.and_eq_true] at h
      have hrec : lastCloseAux ps = none := ih h.2
      have hcp : c ≠ ')' := by simpa using h.1
      simp [lastCloseAux, hc, hrec, hcp]

/-- The greedy close position after an open parenthesis: within a newline-free
inner span followed by a close parenthesis and a tail whose newline-free prefix
has no further close parenthesis, the match ends exactly at that close
parenthesis. -/
theorem lastCloseAux_append :
    ∀ inner post : Str, (∀ ch ∈ inner, ch ≠ '\n') → lastCloseAux post = none →
      lastCloseAux (inner ++ ')' :: post) = some inner.length := by
  intro inner
  induction inner with
  | nil =>
    intro post _ hpost
    simp [lastCloseAux, hpost]
  | cons a inner' ih =>
    intro post hin hpost
    have ha : a ≠ '\n' := hin a (by simp)
    have hrec := ih post (fun ch hch => hin ch (by simp [hch])) hpost
    simp [lastCloseAux, ha, hrec]

/-- Scanning a block consisting of a parenthesis-free pre-segment, then a
greedy parenthetical, leaves the pre-segment and continues on the tail with the
corresponding fuel. -/
theorem removeRemAux_block (inner post : Str)
    (hin : ∀ ch ∈ inner, ch ≠ '\n') (hpost : lastCloseAux post = none) :
    ∀ (pre : Str) (fuel : Nat), (∀ ch ∈ pre, ch ≠ '(') →
      (pre ++ '(' :: (inner ++ ')' :: post)).length ≤ fuel →
      removeRemAux fuel (pre ++ '(' :: (inner ++ ')' :: post)) =
        pre ++ removeRemAux (fuel - pre.length - 1) post := by
  intro pre
  induction pre with
  | nil =>
    intro fuel _ hf
    cases fuel with
    | zero => simp at hf
    | succ g =>
      have hlast := lastCloseAux_append inner post hin hpost
      have hdrop : (inner ++ ')' :: post).drop (inner.length + 1) = post := by
        have h1 : inner ++ ')' :: post = (inner ++ [')']) ++ post := by simp
        have h2 : inner.length + 1 = (inner ++ [')']).length := by simp
        rw [h1, h2, List.drop_left]
      simp [removeRemAux, hlast, hdrop]
  | cons a pre' ih =>
    intro fuel hpre hf
    cases fuel with
    | zero => simp at hf
    | succ g =>
      have ha : a ≠ '(' := hpre a (by simp)
      have hg : (pre' ++ '(' :: (inner ++ ')' :: post)).length ≤ g := by
        simp only [List.cons_append, List.length_cons] at hf
        omega
      have hstep := ih g (fun ch hch => hpre ch (by simp [hch])) hg
      have harith : Nat.succ g - (a :: pre').length - 1 = g - pre'.length - 1 := by
        simp only [List.length_cons]
        omega
      simp only [List.cons_append]
      rw [removeRemAux, if_neg (by simpa using ha), hstep, harith]

/-- The scan result does not depend on the exact fuel, as long as the fuel
covers the length of the string. -/
theorem removeRemAux_fuel :
    ∀ (f g : Nat) (s : Str), s.length ≤ f → s.length ≤ g →
      removeRemAux f s = removeRemAux g s := by
  intro f
  induction f with
  | zero =>
    intro g s hf _
    have : s = [] := List.length_eq_zero.mp (Nat.le_zero.mp hf)
    subst this
    cases g <;> rfl
  | succ f ih =>
    intro g s hf hg
    cases s with
    | nil => cases g <;> rfl
    | cons c rest =>
      cases g with
      | zero => simp at hg
      | succ g' =>
        have hrest_f : rest.length ≤ f := by simp only [List.length_cons] at hf; omega
        have hrest_g : rest.length ≤ g' := by simp only [List.length_cons] at hg; omega
        by_cases hc : c = '('
        · cases hm : lastCloseAux rest with
          | some k =>
            have hdf : (rest.drop (k + 1)).length ≤ f := by
              rw [List.length_drop]; omega
            have hdg : (rest.drop (k + 1)).length ≤ g' := by
              rw [List.length_drop]; omega
            simp [removeRemAux, hc, hm, ih g' _ hdf hdg]
          | none =>
            simp [removeRemAux, hc, hm, ih g' rest hrest_f hrest_g]
        · simp [removeRemAux, hc, ih g' rest hrest_f hrest_g]


/-- An unrecognized rarity makes the per-card normalization raise. -/
theorem normalizeCard_error (c : RawCard) (h : lookupRarity c.rarity = none) :
    normalizeCard c = Except.error keyErrorMsg := by
  simp [normalizeCard, h]

/-- Field equations of a successfully normalized card. -/
theorem normalizeCard_ok (c : RawCard) (card : Card)
    (h : normalizeCard c = Except.ok card) :
    card.colors = c.colors ∧ card.name = normalizeName c.name ∧
    card.type = normalizeTypeLine c.card_type ∧
    card.text = normalizeText c.name c.text := by
  unfold normalizeCard at h
  cases hl : lookupRarity c.rarity with
  | none =>
    rw [hl] at h
    cases h
  | some rc =>
    rw [hl] at h
    cases h
    refine ⟨rfl, ?_, ?_, ?_⟩ <;> simp only [mkNormalized]

/-- Successful normalization yields exactly the appended dictionary. -/
theorem normalizeCard_ok_eq (c : RawCard) (card : Card)
    (h : normalizeCard c = Except.ok card) :
    ∃ rc, lookupRarity c.rarity = some rc ∧ card = mkNormalized c rc := by
  unfold normalizeCard at h
  cases hl : lookupRarity c.rarity with
  | none =>
    rw [hl] at h
    cases h
  | some rc =>
    rw [hl] at h
    cases h
    exact ⟨rc, rfl, rfl⟩

/-- A member of the selected rows passes the hardcoded color filter. -/
theorem mem_queryCards (db : DB) (code : Str) (r : RawCard)
    (h : r ∈ queryCards db code) : r.colors = uStr := by
  simp only [queryCards, List.mem_filter, Bool.and_eq_true, beq_iff_eq] at h
  exact h.2.2

/-- If any selected row fails normalization, the card loop never succeeds. -/
theorem loadCards_error_of_mem :
    ∀ (rows : List RawCard) (r : RawCard), r ∈ rows →
      normalizeCard r = Except.error keyErrorMsg →
      ∀ cs, loadCards rows ≠ Except.ok cs := by
  intro rows
  induction rows with
  | nil => intro r hr; cases hr
  | cons x rs ih =>
    intro r hr herr cs hok
    rcases List.mem_cons.mp hr with he | hm
    · subst he
      rw [loadCards, herr] at hok
      cases hok
    · rw [loadCards] at hok
      cases hx : normalizeCard x with
      | error e => rw [hx] at hok; cases hok
      | ok c0 =>
        rw [hx] at hok
        cases hcs : loadCards rs with
        | error e => rw [hcs] at hok; cases hok
        | ok cs' => exact ih r hm herr cs' hcs

/-- Every card in a successful card-loop result comes from a selected row. -/
theorem loadCards_mem :
    ∀ (rows : List RawCard) (cs : List Card), loadCards rows = Except.ok cs →
      ∀ c ∈ cs, ∃ r ∈ rows, normalizeCard r = Except.ok c := by
  intro rows
  induction rows with
  | nil =>
    intro cs h c hc
    rw [loadCards] at h
    injection h with h
    subst h
    cases hc
  | cons x rs ih =>
    intro cs h c hc
    rw [loadCards] at h
    cases hx : normalizeCard x with
    | error e => rw [hx] at h; cases h
    | ok c0 =>
      rw [hx] at h
      cases hrs : loadCards rs with
      | error e => rw [hrs] at h; cases h
      | ok cs' =>
        rw [hrs] at h
        injection h with h
        subst h
        rcases List.mem_cons.mp hc with he | hm
        · exact ⟨x, by simp, by rw [hx, he]⟩
        · obtain ⟨r, hr, hrok⟩ := ih cs' hrs c hm
          exact ⟨r, by simp [hr], hrok⟩

/-- A successful load yields exactly the successful card loop on the selected
rows, and requires a matching set row. -/
theorem loadMtgSet_ok (db : DB) (code : Str) (sd : SetData) (cards : List Card)
    (h : loadMtgSet db code = Except.ok (sd, cards)) :
    loadCards (queryCards db code) = Except.ok cards := by
  rw [loadMtgSet] at h
  cases hlc : loadCards (queryCards db code) with
  | error e => rw [hlc] at h; cases h
  | ok cs =>
    rw [hlc] at h
    cases hsd : (((db.sets.filter (fun r => r.code == code)).take 1).foldl
        (fun _ r => some { name := r.name, release := r.releaseDate, type := r.type })
        (none : Option SetData)) with
    | none => rw [hsd] at h; cases h
    | some sd' =>
      rw [hsd] at h
      injection h with h
      rw [Prod.mk.injEq] at h
      rw [h.2]


/-- A rarity string differing from all four recognized values has no lookup
result. -/
theorem lookupRarity_none (r : Str) (h1 : r ≠ "common".toList)
    (h2 : r ≠ "uncommon".toList) (h3 : r ≠ "rare".toList)
    (h4 : r ≠ "mythic".toList) : lookupRarity r = none := by
  have b1 : (r == "common".toList) = false := beq_eq_false_iff_ne.mpr h1
  have b2 : (r == "uncommon".toList) = false := beq_eq_false_iff_ne.mpr h2
  have b3 : (r == "rare".toList) = false := beq_eq_false_iff_ne.mpr h3
  have b4 : (r == "mythic".toList) = false := beq_eq_false_iff_ne.mpr h4
  simp only [lookupRarity, RARITY_MAPPING, kv, List.lookup, b1, b2, b3, b4]

/-- With no matching set row, the load never returns successfully: the
unbound set-metadata variable raises at the return statement (when the card
loop has not already raised). -/
theorem loadMtgSet_no_set_row (db : DB) (code : Str)
    (h : db.sets.filter (fun r => r.code == code) = []) :
    ∀ v, loadMtgSet db code ≠ Except.ok v := by
  intro v hv
  simp only [loadMtgSet, h, List.take_nil, List.foldl_nil] at hv
  cases hlc : loadCards (queryCards db code) with
  | error e => rw [hlc] at hv; cases hv
  | ok cs => rw [hlc] at hv; cases hv


/-- C1 (amended): every dictionary application to the type line and to the
rules text performs two literal substitution passes per (pattern, replacement)
pair — exact-case first, then the all-lowercase variant — but the step-6
rewrite of the card's own name field by the Land dictionary performs only the
single exact-case pass, and the two genuinely differ on lowercase land words
such as "forest". -/
theorem c1_name_rewrite_single_pass (c : RawCard) (card : Card)
    (h : normalizeCard c = Except.ok card) :
    card.name = applyMapping1 LAND_MAPPING c.name ∧
    applyMapping1 LAND_MAPPING ("forest".toList) ≠
      applyMapping2 LAND_MAPPING ("forest".toList) := by
  refine ⟨?_, by decide⟩
  rw [(normalizeCard_ok c card h).2.1]
  simp only [normalizeName]

/-- C1 witness: the name field of the concrete normalized card is the
single-pass Land rewrite of its raw name. -/
theorem c1_name_rewrite_single_pass_witness :
    cardEx.name = applyMapping1 LAND_MAPPING rawEx.name ∧
    applyMapping1 LAND_MAPPING ("forest".toList) ≠
      applyMapping2 LAND_MAPPING ("forest".toList) :=
  c1_name_rewrite_single_pass rawEx cardEx rfl

/-- C1 counterexample: a card named "forest" keeps its lowercase name, while
the two-pass application the claim asserts would rewrite it to "FoL". -/
theorem c1_lowercase_land_name_unchanged :
    Except.map (fun card => card.name) (normalizeCard forestRaw) =
      Except.ok ("forest".toList) ∧
    applyMapping2 LAND_MAPPING ("forest".toList) = "FoL".toList ∧
    ("forest".toList : Str) ≠ "FoL".toList := by
  refine ⟨rfl, by decide, by decide⟩

/-- C2: for every successfully normalized card, the type line is the result
of the Supertype, then Subtype, then Land dictionary (two passes each), and
the rules text is the result of Phrase, Supertype, Subtype, Land, Keyword,
Number dictionaries, then single-pass mana-bracket stripping, then
reminder-text removal, then name-placeholder substitution, then whitespace
collapse, in exactly that order. -/
theorem c2_pipeline_order (c : RawCard) (card : Card)
    (h : normalizeCard c = Except.ok card) :
    card.type = applyMapping2 LAND_MAPPING (applyMapping2 SUB_TYPE_MAPPING
      (applyMapping2 SUPER_TYPE_MAPPING c.card_type)) ∧
    card.text = collapseWs (replaceAll c.name NAME_PLACEHOLDER (removeReminder
      (applyMapping1 MANA_COST_MAPPING (applyMapping2 NUMBER_MAPPING
      (applyMapping2 KEYWORD_MAPPING (applyMapping2 LAND_MAPPING
      (applyMapping2 SUB_TYPE_MAPPING (applyMapping2 SUPER_TYPE_MAPPING
      (applyMapping2 TEXT_MAPPING c.text))))))))) := by
  obtain ⟨-, -, hty, htx⟩ := normalizeCard_ok c card h
  constructor
  · rw [hty]
    simp only [normalizeTypeLine]
  · rw [htx]
    simp only [normalizeText]

/-- C2 witness: the pipeline-order equations at the concrete benign card. -/
theorem c2_pipeline_order_witness :
    cardEx.type = applyMapping2 LAND_MAPPING (applyMapping2 SUB_TYPE_MAPPING
      (applyMapping2 SUPER_TYPE_MAPPING rawEx.card_type)) ∧
    cardEx.text = collapseWs (replaceAll rawEx.name NAME_PLACEHOLDER (removeReminder
      (applyMapping1 MANA_COST_MAPPING (applyMapping2 NUMBER_MAPPING
      (applyMapping2 KEYWORD_MAPPING (applyMapping2 LAND_MAPPING
      (applyMapping2 SUB_TYPE_MAPPING (applyMapping2 SUPER_TYPE_MAPPING
      (applyMapping2 TEXT_MAPPING rawEx.text))))))))) :=
  c2_pipeline_order rawEx cardEx rfl

/-- C3 (amended): reminder-text removal is greedy, not non-greedy: at an open
parenthesis it deletes the span up to the last close parenthesis of the
newline-free segment, so when two parentheticals share a line the text between
them is deleted too, and scanning resumes after the deleted span. -/
theorem c3_reminder_removal_greedy (pre inner post : Str)
    (hpre : ∀ ch ∈ pre, ch ≠ '(')
    (hin : ∀ ch ∈ inner, ch ≠ '\n')
    (hpost : (post.takeWhile (fun c => !(c == '\n'))).all (fun c => !(c == ')')) = true) :
    removeReminder (pre ++ '(' :: (inner ++ ')' :: post)) = pre ++ removeReminder post := by
  have hnone := lastCloseAux_no_close post hpost
  simp only [removeReminder]
  rw [removeRemAux_block inner post hin hnone pre _ hpre (le_refl _)]
  congr 1
  apply removeRemAux_fuel
  · simp only [List.length_append, List.length_cons]
    omega
  · exact le_refl _

/-- C3 witness: the greedy block equation at a concrete two-parenthetical
line; the inner span "a) mid (b" contains a whole close-open pair, so the
text between the two parentheticals is removed. -/
theorem c3_reminder_removal_greedy_witness :
    removeReminder (("x ".toList) ++ '(' :: (("a) mid (b".toList) ++ ')' :: (" y".toList))) =
      ("x ".toList) ++ removeReminder (" y".toList) :=
  c3_reminder_removal_greedy ("x ".toList) ("a) mid (b".toList) (" y".toList)
    (by decide) (by decide) (by decide)

/-- C3 counterexample: on two separate parentheticals with text between them,
the code deletes everything including the between text, where the claimed
non-greedy semantics would keep " mid ". -/
theorem c3_between_text_deleted :
    removeReminder ("(a) mid (b)".toList) = ([] : Str) ∧
    removeReminder ("(a) mid (b)".toList) ≠ (" mid ".toList) := by
  refine ⟨by decide, by decide⟩

/-- C4 (amended): the normalized rules text contains no occurrence of the
card's pre-normalization name provided the name is nonempty, contains no
whitespace character, and shares no character with the placeholder "NAME";
without those conditions the placeholder substitution or whitespace collapse
can recreate an occurrence. -/
theorem c4_name_placeholder_guarded (name text : Str) (h1 : name ≠ [])
    (h2 : ∀ ch ∈ name, isSpace ch = false)
    (h3 : ∀ ch ∈ name, ch ∉ NAME_PLACEHOLDER) :
    containsSub name (normalizeText name text) = false := by
  have hnp : NAME_PLACEHOLDER ≠ [] := by decide
  simp only [normalizeText, collapseWs]
  exact containsSub_collapseAux name h1 h2 _ _
    (containsSub_stripList name _
      (containsSub_replaceAll name NAME_PLACEHOLDER _ h1 hnp h3))

/-- C4 witness: a name disjoint from the placeholder and whitespace is indeed
absent from the normalized text. -/
theorem c4_name_placeholder_guarded_witness :
    containsSub ("xy".toList)
      (normalizeText ("xy".toList) ("Flying (a) xy".toList)) = false :=
  c4_name_placeholder_guarded ("xy".toList) ("Flying (a) xy".toList)
    (by decide) (by decide) (by decide)

/-- C4 counterexample: for the card name "AME" and rules text "NAMEX", the
placeholder substitution produces "NNAMEX", which again contains the
pre-normalization name "AME". -/
theorem c4_name_reintroduced :
    containsSub ("AME".toList)
      (normalizeText ("AME".toList) ("NAMEX".toList)) = true ∧
    normalizeText ("AME".toList) ("NAMEX".toList) = "NNAMEX".toList := by
  refine ⟨by decide, by decide⟩

/-- C5 (code bug): the final text handed to the output boundary is only the
set-metadata block followed by the card block; the instructional template
`PROMPT` is defined but never concatenated, so the claimed template prefix is
absent. -/
theorem c5_prompt_template_missing :
    mainOutput dbEx ("S1".toList) = Except.ok (generatePrompt setEx [cardEx]) ∧
    generatePrompt setEx [] =
      ("name|release|type\nS|R|T\ntype|mana_cost|name|power|toughness|rarity|text\n").toList ∧
    PROMPT.isPrefixOf (generatePrompt setEx []) = false ∧
    PROMPT ≠ [] := by
  refine ⟨rfl, by decide, by decide, by decide⟩

/-- C6: rarity normalization maps the four recognized strings to their codes,
returns no result for any other string, and an unrecognized rarity among the
selected cards makes the whole load fail with no output. -/
theorem c6_rarity_strict :
    lookupRarity ("common".toList) = some ("C".toList) ∧
    lookupRarity ("uncommon".toList) = some ("U".toList) ∧
    lookupRarity ("rare".toList) = some ("R".toList) ∧
    lookupRarity ("mythic".toList) = some ("M".toList) ∧
    (∀ r : Str, r ≠ "common".toList → r ≠ "uncommon".toList →
      r ≠ "rare".toList → r ≠ "mythic".toList → lookupRarity r = none) ∧
    ∀ (db : DB) (code : Str) (r : RawCard), r ∈ queryCards db code →
      lookupRarity r.rarity = none →
      ∀ v, loadMtgSet db code ≠ Except.ok v := by
  refine ⟨rfl, rfl, rfl, rfl, lookupRarity_none, ?_⟩
  intro db code r hmem hnone v hv
  obtain ⟨sd, cards⟩ := v
  exact loadCards_error_of_mem (queryCards db code) r hmem
    (normalizeCard_error r hnone) cards (loadMtgSet_ok db code sd cards hv)

/-- C6 witness: a database whose only selected card has rarity "special"
makes the load fail. -/
theorem c6_rarity_strict_witness :
    loadMtgSet dbBadRarity ("S1".toList) ≠ Except.ok (setEx, []) :=
  c6_rarity_strict.2.2.2.2.2 dbBadRarity ("S1".toList) badRarityRaw
    (by decide) (by decide) (setEx, [])

/-- C7 (amended): when the set-metadata query matches no row, the load does
not silently proceed: the never-bound set-metadata variable raises at the
return statement (unless the card loop already raised), so the function never
returns successfully and serialization never runs. -/
theorem c7_zero_set_rows_raises (db : DB) (code : Str)
    (h : db.sets.filter (fun r => r.code == code) = []) :
    ∀ v, loadMtgSet db code ≠ Except.ok v := by
  intro v hv
  simp only [loadMtgSet, h, List.take_nil, List.foldl_nil] at hv
  cases hlc : loadCards (queryCards db code) with
  | error e => rw [hlc] at hv; cases hv
  | ok cs => rw [hlc] at hv; cases hv

/-- C7 witness: the load over a database without set rows never returns the
concrete successful value. -/
theorem c7_zero_set_rows_raises_witness :
    loadMtgSet dbNoSet ("S1".toList) ≠ Except.ok (setEx, [cardEx]) :=
  c7_zero_set_rows_raises dbNoSet ("S1".toList) rfl (setEx, [cardEx])

/-- C7 counterexample: with zero matching set rows and one selectable valid
card, the load raises the unbound-variable error instead of returning with an
unset set-metadata value as the claim states. -/
theorem c7_load_raises_not_silent :
    loadMtgSet dbNoSet ("S1".toList) = Except.error unboundLocalMsg := rfl

/-- C8 (amended): a card named exactly "Forest" has its name and its type
line rewritten via the Land dictionary, and a name containing no Land
dictionary pattern is left unchanged by the name pass; but the pass is a
substring replacement, so a non-basic name merely containing a land word is
partially rewritten. -/
theorem c8_basic_land_name_rewrites :
    normalizeName ("Forest".toList) = "FoL".toList ∧
    normalizeTypeLine ("Basic Land — Forest".toList) = "BaL L — FoL".toList ∧
    ∀ n : Str, (∀ pr ∈ LAND_MAPPING, containsSub pr.1 n = false) →
      normalizeName n = n := by
  refine ⟨by decide, by decide, ?_⟩
  intro n h
  simp only [normalizeName]
  exact applyMapping1_not_contains LAND_MAPPING n h

/-- C8 witness: a short name without land words is untouched. -/
theorem c8_basic_land_name_rewrites_witness :
    normalizeName ("Opt".toList) = "Opt".toList :=
  c8_basic_land_name_rewrites.2.2 ("Opt".toList) (by decide)

/-- C8 counterexample: the non-basic name "Forestwalker" is rewritten to
"FoLwalker" by the Land name pass, contradicting "left completely
unchanged". -/
theorem c8_substring_name_rewritten :
    Except.map (fun card => card.name) (normalizeCard walkerRaw) =
      Except.ok ("FoLwalker".toList) ∧
    ("FoLwalker".toList : Str) ≠ "Forestwalker".toList := by
  refine ⟨rfl, by decide⟩

/-- C9 (amended): no dictionary pattern, in exact-case or lowercase form,
occurs inside any replacement code, yet per-card text normalization is not
idempotent: overlapping partial matches can leave a dictionary pattern in the
output — "Ratt" normalizes to "Rat", which a second run rewrites to "Ra". -/
theorem c9_codes_keyfree_not_idempotent :
    noKeyInCodes = true ∧
    normalizeText ("Q".toList) ("Ratt".toList) = "Rat".toList ∧
    normalizeText ("Q".toList) ("Rat".toList) = "Ra".toList := by
  refine ⟨by decide, by decide, by decide⟩

/-- C9 counterexample: re-running text normalization on an already-normalized
text rewrites it further. -/
theorem c9_second_run_shrinks :
    normalizeText ("Q".toList) (normalizeText ("Q".toList) ("Ratt".toList)) ≠
      normalizeText ("Q".toList) ("Ratt".toList) := by decide

/-- C10: the card query hardcodes the color filter to 'U', and the colors
field passes through normalization unchanged, so every card record of a
successful load has colors equal to "U" regardless of the set code. -/
theorem c10_colors_always_blue (db : DB) (code : Str) (sd : SetData)
    (cards : List Card) (h : loadMtgSet db code = Except.ok (sd, cards)) :
    ∀ card ∈ cards, card.colors = "U".toList := by
  intro card hc
  obtain ⟨r, hr, hok⟩ := loadCards_mem (queryCards db code) cards
    (loadMtgSet_ok db code sd cards h) card hc
  rw [(normalizeCard_ok r card hok).1, mem_queryCards db code r hr]
  rfl

/-- C10 witness: the concrete loaded card is mono-blue. -/
theorem c10_colors_always_blue_witness : cardEx.colors = "U".toList :=
  c10_colors_always_blue dbEx ("S1".toList) setEx [cardEx] rfl cardEx (by simp)

end MtgBot
